import Mathlib

set_option maxHeartbeats 1000000

/-!
Verification development for the mdna-etl repository.

The definitions below are a shallow embedding of the code under
`src/src/core/zip_processor.py`, `src/src/utils/cik_filter.py` and
`src/src/utils/cik_loader.py`.  Components of the repository whose source
is not available (`FilingManager`, `config.settings`) are modelled from the
specification; each such definition carries a doc comment starting with
"Modelled from the spec:".
-/

/-! ## String utilities (Python string primitives used by the sources) -/

/-- Boolean list-prefix test; models matching a literal pattern at a fixed
position of a string. -/
def isPrefixL : List Char → List Char → Bool
  | [], _ => true
  | _ :: _, [] => false
  | a :: as, b :: bs => a == b && isPrefixL as bs

/-- Python substring containment `pat in s`, on character lists. -/
def containsSub (pat : List Char) : List Char → Bool
  | [] => isPrefixL pat []
  | c :: rest => isPrefixL pat (c :: rest) || containsSub pat rest

/-- Python `str.upper()` restricted to what filename comparison needs. -/
def upperStr (s : String) : List Char := s.toList.map Char.toUpper

/-- Python `str.strip()`: drop leading and trailing whitespace. -/
def stripStr (s : String) : String :=
  String.mk
    (((s.toList.dropWhile Char.isWhitespace).reverse.dropWhile
        Char.isWhitespace).reverse)

/-- Python `str.zfill`: left-pad with zeros to the target width, keeping a
leading sign character in place. -/
def zfill (w : Nat) (s : String) : String :=
  if w ≤ s.toList.length then s
  else
    match s.toList with
    | [] => String.mk (List.replicate w '0')
    | c :: rest =>
      if c = '+' ∨ c = '-' then
        String.mk (c :: (List.replicate (w - (c :: rest).length) '0' ++ rest))
      else String.mk (List.replicate (w - (c :: rest).length) '0' ++ (c :: rest))

/-! ## Filer-id extraction, src/src/core/zip_processor.py lines 25-35 -/

/-- The regex capture `\d{1,n}`: digits taken greedily (at most `n`) at the
head of the list. -/
def takeDigits (n : Nat) (cs : List Char) : List Char :=
  (cs.takeWhile Char.isDigit).take n

/-- One attempt of the pattern `edgar_data_(\d{1,10})` anchored at the head
of the list; `none` when the literal or the first digit is missing. -/
def labeledAt (cs : List Char) : Option (List Char) :=
  if isPrefixL "edgar_data_".toList cs then
    match takeDigits 10 (cs.drop 11) with
    | [] => none
    | d :: ds => some (d :: ds)
  else none

/-- `re.search` scan for `edgar_data_(\d{1,10})`: the leftmost matching
position wins. -/
def searchLabeled : List Char → Option (List Char)
  | [] => none
  | c :: rest =>
    match labeledAt (c :: rest) with
    | some ds => some ds
    | none => searchLabeled rest

/-- One attempt of the pattern `(\d{4,10})` anchored at the head of the
list. -/
def bareAt (cs : List Char) : Option (List Char) :=
  let ds := takeDigits 10 cs
  if 4 ≤ ds.length then some ds else none

/-- `re.search` scan for `(\d{4,10})`: the leftmost matching position
wins. -/
def searchBare : List Char → Option (List Char)
  | [] => none
  | c :: rest =>
    match bareAt (c :: rest) with
    | some ds => some ds
    | none => searchBare rest

/-- `ZipProcessor._extract_cik_from_name` (src/src/core/zip_processor.py
lines 25-32): labeled `edgar_data_` pattern first, then the first bare run
of 4-10 digits, zero-padded to 10 digits; `none` when neither matches. -/
def extract_cik_from_name (filename : String) : Option String :=
  match searchLabeled filename.toList with
  | some ds => some (zfill 10 (String.mk ds))
  | none =>
    match searchBare filename.toList with
    | some ds => some (zfill 10 (String.mk ds))
    | none => none

/-- `ZipProcessor._is_10k` (src/src/core/zip_processor.py lines 34-35):
`"10-K" in filename.upper() or "10K" in filename.upper()`. -/
def is_10k (filename : String) : Bool :=
  containsSub "10-K".toList (upperStr filename) ||
    containsSub "10K".toList (upperStr filename)

/-! ## Identifier set loaders, src/src/utils/cik_filter.py and
src/src/utils/cik_loader.py.  The returned Python `set` is modelled as a
duplicate-free list grown by `insertUnique`. -/

/-- Set insertion on the duplicate-free list model of a Python set. -/
def insertUnique (l : List String) (s : String) : List String :=
  if s ∈ l then l else l ++ [s]

/-- One row of `cik_filter.load_cik_list` (src/src/utils/cik_filter.py
lines 17-25): strip the first field, keep only its digits, and add the
zero-padded result when any digit remains. -/
def cik_filter_row (acc : List String) (row : List String) : List String :=
  match row with
  | [] => acc
  | f0 :: _ =>
    let cik := stripStr f0
    if cik.toList.isEmpty then acc
    else
      let ds := cik.toList.filter Char.isDigit
      if ds.isEmpty then acc else insertUnique acc (zfill 10 (String.mk ds))

/-- `cik_filter.load_cik_list` over the parsed CSV rows. -/
def cik_filter_load (rows : List (List String)) : List String :=
  rows.foldl cik_filter_row []

/-- One row of `cik_loader.load_cik_list` (src/src/utils/cik_loader.py
lines 17-29): strip the first field and add its zero-padded form directly,
without filtering out non-digit characters. -/
def cik_loader_row (acc : List String) (row : List String) : List String :=
  match row with
  | [] => acc
  | f0 :: _ =>
    let cik := stripStr f0
    if cik.toList.isEmpty then acc else insertUnique acc (zfill 10 cik)

/-- `cik_loader.load_cik_list` over the parsed CSV rows. -/
def cik_loader_load (rows : List (List String)) : List String :=
  rows.foldl cik_loader_row []

/-! ## Data model for candidates and the filing registry -/

/-- Form-type buckets of §3/§4.2 of the spec: Annual ("10-K" family),
Quarterly ("10-Q" family); `other` stands for any further form-type token
a filename could expose. -/
inductive FormType where
  | annual
  | quarterly
  | other
  deriving DecidableEq

/-- A file location: directory part and final name component.  Loose files
live in the input directory; archive members are extracted into fresh
scratch directories, so their `dir` parts are distinct from the input
directory and from each other. -/
structure FPath where
  dir : String
  name : String
  deriving DecidableEq

/-- Python `str(fp)` on a path. -/
def fpStr (fp : FPath) : String := fp.dir ++ "/" ++ fp.name

/-- One discovered filing candidate: its location and the form-type bucket
recorded for it at registration time. -/
structure Cand where
  fp : FPath
  form : FormType
  deriving DecidableEq

/-- Registry key: (filer id, fiscal year). -/
abbrev GroupKey := String × Nat

/-- Modelled from the spec: the Filing Registry of §4.3 (class
`FilingManager`, whose source is not under src/).  An association list from
(filer id, fiscal year) to the group's candidates; group order is the
insertion order of the first-seen key and candidates within a group keep
insertion order. -/
abbrev Registry := List (GroupKey × List Cand)

/-- Modelled from the spec: `FilingManager.add_filing` (§4.3) appends the
candidate to the group of its key, creating the group at the end on a
first-seen key. -/
def addFiling (reg : Registry) (cik : String) (year : Nat) (c : Cand) :
    Registry :=
  match reg with
  | [] => [((cik, year), [c])]
  | (k, cs) :: rest =>
    if k = (cik, year) then (k, cs ++ [c]) :: rest
    else (k, cs) :: addFiling rest cik year c

/-- Modelled from the spec: form-type classification of
`FilingManager._parse_filename_metadata` per §4.2 step 2 — Annual when the
upper-cased name contains "10-K" or "10K", else Quarterly when it contains
"10-Q" or "10Q", else absent (the naming convention exposes no further
token). -/
def classifyForm (name : String) : Option FormType :=
  if containsSub "10-K".toList (upperStr name) ||
      containsSub "10K".toList (upperStr name) then some FormType.annual
  else if containsSub "10-Q".toList (upperStr name) ||
      containsSub "10Q".toList (upperStr name) then some FormType.quarterly
  else none

/-- Modelled from the spec: `FilingManager._parse_filename_metadata`
(§4.2).  The filer id follows the same "edgar_data_"/bare-digits
convention as the in-source extractor; the fiscal year comes from an
external metadata convention, taken here as the oracle `yearOf`; the form
type is `classifyForm`. -/
def parse_filename_metadata (yearOf : String → Option Nat) (name : String) :
    Option String × Option Nat × Option FormType :=
  (extract_cik_from_name name, yearOf name, classifyForm name)

/-! ## Selection engine (spec §4.4), modelled from the spec -/

/-- Modelled from the spec: the winner of one selection group per §4.4 —
the first Annual candidate when the Annual bucket is non-empty (Rule A),
else the first Quarterly candidate (Rule B), else the first candidate of
the group (Rule C). -/
def chooseFrom (cs : List Cand) : Option Cand :=
  match cs.filter (fun c => c.form == FormType.annual) with
  | w :: _ => some w
  | [] =>
    match cs.filter (fun c => c.form == FormType.quarterly) with
    | w :: _ => some w
    | [] => cs.head?

/-- Modelled from the spec: the skipped candidates of one group — every
group member other than the chosen winner (§4.4, Rules A-C). -/
def skipOf (g : GroupKey × List Cand) : List Cand :=
  match chooseFrom g.2 with
  | some w => g.2.erase w
  | none => g.2

/-- Modelled from the spec: the `process` side of
`FilingManager._select_filings_to_process` — one winner per group, in
group order. -/
def selectProcess (reg : Registry) : List Cand :=
  reg.filterMap (fun g => chooseFrom g.2)

/-- Modelled from the spec: the `skip` side of
`FilingManager._select_filings_to_process`. -/
def selectSkip (reg : Registry) : List Cand :=
  (reg.map skipOf).flatten

/-! ## Per-archive processing, src/src/core/zip_processor.py lines 37-149 -/

/-- Outcome of dispatching one file to the Content Extractor: a truthy
result, a falsy/empty result, or a raised exception with its message (a
failure of the member extraction itself is also a raised exception caught
by the same handler). -/
inductive ExtractOutcome where
  | ok
  | empty
  | err (msg : String)
  deriving DecidableEq

/-- An archive as the processor sees it: unreadable (opening raises, with
the message the handler records), or a readable member list. -/
inductive ZipContent where
  | bad (msg : String)
  | good (members : List String)
  deriving DecidableEq

/-- Modelled from the spec: `config.settings.VALID_EXTENSIONS` is not under
src/; §6 calls it the recognized text-file suffixes, and the discovery
scenarios use both `.txt` and `.TXT`. -/
def VALID_EXTENSIONS : List String := [".txt", ".TXT"]

/-- Python `str.endswith`. -/
def endsWith (suffix s : String) : Bool :=
  suffix.toList.isSuffixOf s.toList

/-- The per-archive statistics dict built by `process_zip_file`: error
entries are (file, error-message) pairs. -/
structure ZipStats where
  zip_file : String
  total_files : Nat
  processed : Nat
  failed : Nat
  errors : List (String × String)
  deriving DecidableEq

/-- Line 65: members whose names end with a recognized text suffix. -/
def zipTextList (members : List String) : List String :=
  members.filter (fun f => VALID_EXTENSIONS.any (fun ext => endsWith ext f))

/-- Lines 68-74: with a filter set, keep files whose extracted CIK is in
the set and whose name passes `_is_10k`. -/
def zipFirstFilter (fl : List String) (files : List String) : List String :=
  files.filter (fun fname =>
    match extract_cik_from_name fname with
    | some cik => fl.contains cik && is_10k fname
    | none => false)

/-- Lines 83-88: the in-loop metadata filter — requires a parsed CIK in the
filter set and a form type starting with "10-K" (the Annual bucket of the
modelled parser). -/
def zipSecondPass (yearOf : String → Option Nat) (fl : List String)
    (fname : String) : Bool :=
  match parse_filename_metadata yearOf fname with
  | (some cik, _, some ft) => fl.contains cik && (ft == FormType.annual)
  | _ => false

/-- Lines 89-101: one iteration of the extraction loop — a truthy result
counts as processed, a falsy result or an exception counts as failed and
appends an error entry holding the file name. -/
def zipStep (outcome : String → ExtractOutcome) (st : ZipStats)
    (fname : String) : ZipStats :=
  match outcome fname with
  | ExtractOutcome.ok => { st with processed := st.processed + 1 }
  | ExtractOutcome.empty =>
    { st with
      failed := st.failed + 1
      errors := st.errors ++ [(fname, "Extraction failed")] }
  | ExtractOutcome.err m =>
    { st with
      failed := st.failed + 1
      errors := st.errors ++ [(fname, m)] }

/-- Lines 82-101: the loop body — with a filter set, files failing the
in-loop metadata filter are skipped (`continue`) without touching the
statistics. -/
def zipLoopStep (yearOf : String → Option Nat) (filt : Option (List String))
    (outcome : String → ExtractOutcome) (st : ZipStats) (fname : String) :
    ZipStats :=
  match filt with
  | none => zipStep outcome st fname
  | some fl =>
    if zipSecondPass yearOf fl fname then zipStep outcome st fname else st

/-- The files the loop actually dispatches to the extractor. -/
def zipDispatched (yearOf : String → Option Nat)
    (filt : Option (List String)) (files : List String) : List String :=
  match filt with
  | none => files
  | some fl => files.filter (zipSecondPass yearOf fl)

/-- Lines 64-74: the text members kept for the loop — extension filter
first, then (with a filter set) the CIK/10-K name filter. -/
def zipCandidates (filt : Option (List String)) (members : List String) :
    List String :=
  match filt with
  | none => zipTextList members
  | some fl => zipFirstFilter fl (zipTextList members)

/-- `process_zip_file` (src/src/core/zip_processor.py lines 37-109): an
unreadable archive yields zero counters and exactly one error entry naming
the archive; otherwise the text members are filtered, counted, and folded
through the extraction loop. -/
def process_zip_file (yearOf : String → Option Nat)
    (outcome : String → ExtractOutcome) (zipPath : String)
    (content : ZipContent) (filt : Option (List String)) : ZipStats :=
  match content with
  | ZipContent.bad msg =>
    { zip_file := zipPath
      total_files := 0
      processed := 0
      failed := 0
      errors := [(zipPath, msg)] }
  | ZipContent.good members =>
    (zipCandidates filt members).foldl (zipLoopStep yearOf filt outcome)
      { zip_file := zipPath
        total_files := (zipCandidates filt members).length
        processed := 0
        failed := 0
        errors := [] }

/-- The overall statistics dict built by `process_directory`. -/
structure DirStats where
  total_zips : Nat
  total_files : Nat
  processed : Nat
  failed : Nat
  zip_stats : List ZipStats
  deriving DecidableEq

/-- Lines 142-147: one iteration of the directory loop — append the
archive's stats and add its counters. -/
def dirStep (yearOf : String → Option Nat)
    (outcome : String → ExtractOutcome) (filt : Option (List String))
    (acc : DirStats) (z : String × ZipContent) : DirStats :=
  let st := process_zip_file yearOf outcome z.1 z.2 filt
  { acc with
    zip_stats := acc.zip_stats ++ [st]
    total_files := acc.total_files + st.total_files
    processed := acc.processed + st.processed
    failed := acc.failed + st.failed }

/-- `process_directory` (src/src/core/zip_processor.py lines 111-149):
`total_zips` is the number of discovered archives, set before the loop;
then each archive is processed in turn. -/
def process_directory (yearOf : String → Option Nat)
    (outcome : String → ExtractOutcome) (zips : List (String × ZipContent))
    (filt : Option (List String)) : DirStats :=
  zips.foldl (dirStep yearOf outcome filt)
    { total_zips := zips.length
      total_files := 0
      processed := 0
      failed := 0
      zip_stats := [] }

/-! ## Mixed-directory processing, src/src/core/zip_processor.py
lines 151-267 -/

/-- The combined statistics dict of `process_mixed_directory`: the
`zip_results`, `text_results` and `combined` sub-dicts flattened, plus the
skipped-quarterly counter and the error list (entries are `str(fp)` or
`str(fp) ++ ": " ++ message`). -/
structure MixedStats where
  zip_total : Nat
  zip_processed : Nat
  zip_failed : Nat
  text_total : Nat
  text_processed : Nat
  text_failed : Nat
  combined_total : Nat
  combined_processed : Nat
  combined_failed : Nat
  skipped_10q : Nat
  errors : List String
  deriving DecidableEq

/-- Lines 177-187: the text members of every readable archive, each
extracted into its own fresh scratch directory (modelled as the archive
path tagged with the member index, which is unique per member like
`tempfile.mkdtemp`).  An unreadable archive contributes nothing here — its
exception is only logged (line 187). -/
def mixedZipTextFiles (zips : List (String × ZipContent)) : List FPath :=
  (zips.map (fun z =>
    match z.2 with
    | ZipContent.bad _ => []
    | ZipContent.good members =>
      ((zipTextList members).enum).map
        (fun im => FPath.mk (z.1 ++ "!" ++ toString im.1) im.2))).flatten

/-- Lines 189-191: loose files of the input directory matching a
recognized suffix, grouped by extension exactly as the glob loop produces
them; `loose` stands for the directory listing. -/
def mixedLooseFiles (loose : List String) : List FPath :=
  ((VALID_EXTENSIONS.map (fun ext =>
    loose.filter (fun n => endsWith ext n))).flatten).map
      (fun n => FPath.mk "input" n)

/-- Lines 193-197: the `_match` predicate — without a filter everything
passes; with one, the extracted CIK must be present, in the set, and the
name must pass `_is_10k`. -/
def match_pred (filt : Option (List String)) (fp : FPath) : Bool :=
  match filt with
  | none => true
  | some fl =>
    match extract_cik_from_name fp.name with
    | some cik => fl.contains cik && is_10k fp.name
    | none => false

/-- Lines 199-201: the candidate lists are filtered by `_match` only when
a filter set is supplied. -/
def applyMatch (filt : Option (List String)) (fps : List FPath) :
    List FPath :=
  match filt with
  | none => fps
  | some _ => fps.filter (match_pred filt)

/-- Helper for `dict.fromkeys` with an accumulator of already-seen
paths. -/
def dedupeAux (seen : List FPath) : List FPath → List FPath
  | [] => []
  | x :: xs =>
    if x ∈ seen then dedupeAux seen xs
    else x :: dedupeAux (x :: seen) xs

/-- Lines 203-205: `list(dict.fromkeys(...))` — keeps the first occurrence
of each (exactly equal) path, preserving order. -/
def dedupeKeepFirst (l : List FPath) : List FPath := dedupeAux [] l

/-- Lines 215-223: one registration step.  The name is parsed; with a
filter set the candidate is dropped when its CIK is absent or not in the
set, or when its present form type is outside the "10-K" family; it is
registered only when CIK, year and form type are all present. -/
def registerStep (yearOf : String → Option Nat)
    (filt : Option (List String)) (reg : Registry) (fp : FPath) : Registry :=
  let meta := parse_filename_metadata yearOf fp.name
  let skipByFilter :=
    match filt with
    | none => false
    | some fl =>
      (match meta.1 with
       | some cik => !(fl.contains cik)
       | none => true) ||
      (match meta.2.2 with
       | some ft => !(ft == FormType.annual)
       | none => false)
  if skipByFilter then reg
  else
    match meta with
    | (some cik, some year, some ft) => addFiling reg cik year ⟨fp, ft⟩
    | _ => reg

/-- Lines 214-223: the registry after registering every discovered text
file. -/
def buildRegistry (yearOf : String → Option Nat)
    (filt : Option (List String)) (fps : List FPath) : Registry :=
  fps.foldl (registerStep yearOf filt) []

/-- The deduplicated, filtered archive-sourced candidate list
(`zip_text_files` after line 204). -/
def mixedZipFiles (zips : List (String × ZipContent))
    (filt : Option (List String)) : List FPath :=
  dedupeKeepFirst (applyMatch filt (mixedZipTextFiles zips))

/-- The deduplicated, filtered loose candidate list (`loose_files` after
line 205). -/
def mixedTextFiles (loose : List String) (filt : Option (List String)) :
    List FPath :=
  dedupeKeepFirst (applyMatch filt (mixedLooseFiles loose))

/-- Line 210: `all_text_files = zip_text_files + loose_files`. -/
def mixedAllText (zips : List (String × ZipContent)) (loose : List String)
    (filt : Option (List String)) : List FPath :=
  mixedZipFiles zips filt ++ mixedTextFiles loose filt

/-- Lines 213-226: the registry a mixed run builds. -/
def mixedRegistry (yearOf : String → Option Nat)
    (zips : List (String × ZipContent)) (loose : List String)
    (filt : Option (List String)) : Registry :=
  buildRegistry yearOf filt (mixedAllText zips loose filt)

/-- Line 227: the `process` side of the selection for a mixed run (the
`set(...)` conversion is the identity here because every discovered path
is registered at most once). -/
def mixedProcessCands (yearOf : String → Option Nat)
    (zips : List (String × ZipContent)) (loose : List String)
    (filt : Option (List String)) : List Cand :=
  selectProcess (mixedRegistry yearOf zips loose filt)

/-- Line 228: the `skip` side of the selection for a mixed run. -/
def mixedSkipCands (yearOf : String → Option Nat)
    (zips : List (String × ZipContent)) (loose : List String)
    (filt : Option (List String)) : List Cand :=
  selectSkip (mixedRegistry yearOf zips loose filt)

/-- Lines 237-259: one iteration of the extraction loop — a truthy result
increments the combined and per-origin processed counters; a falsy result
or an exception increments the failed counters and appends an error entry
holding `str(fp)` (plus the message when one was raised); origin is decided
by membership in `zip_text_files`. -/
def mixedStep (outcome : FPath → ExtractOutcome) (zfiles : List FPath)
    (st : MixedStats) (c : Cand) : MixedStats :=
  match outcome c.fp with
  | ExtractOutcome.ok =>
    if zfiles.contains c.fp then
      { st with
        combined_processed := st.combined_processed + 1
        zip_processed := st.zip_processed + 1 }
    else
      { st with
        combined_processed := st.combined_processed + 1
        text_processed := st.text_processed + 1 }
  | ExtractOutcome.empty =>
    if zfiles.contains c.fp then
      { st with
        combined_failed := st.combined_failed + 1
        errors := st.errors ++ [fpStr c.fp]
        zip_failed := st.zip_failed + 1 }
    else
      { st with
        combined_failed := st.combined_failed + 1
        errors := st.errors ++ [fpStr c.fp]
        text_failed := st.text_failed + 1 }
  | ExtractOutcome.err m =>
    if zfiles.contains c.fp then
      { st with
        combined_failed := st.combined_failed + 1
        errors := st.errors ++ [fpStr c.fp ++ ": " ++ m]
        zip_failed := st.zip_failed + 1 }
    else
      { st with
        combined_failed := st.combined_failed + 1
        errors := st.errors ++ [fpStr c.fp ++ ": " ++ m]
        text_failed := st.text_failed + 1 }

/-- Line 264's test, re-parsing the path as the code does: does the form
type start with "10-Q" (the Quarterly bucket of the modelled parser)? -/
def isSkipped10q (c : Cand) : Bool :=
  match classifyForm c.fp.name with
  | some FormType.quarterly => true
  | _ => false

/-- Lines 169-211: the statistics before the extraction loop — the three
`total_files` fields are set from the discovered lists, every other
counter starts at zero. -/
def mixedInit (zips : List (String × ZipContent)) (loose : List String)
    (filt : Option (List String)) : MixedStats :=
  { zip_total := (mixedZipFiles zips filt).length
    zip_processed := 0
    zip_failed := 0
    text_total := (mixedTextFiles loose filt).length
    text_processed := 0
    text_failed := 0
    combined_total := (mixedAllText zips loose filt).length
    combined_processed := 0
    combined_failed := 0
    skipped_10q := 0
    errors := [] }

/-- `process_mixed_directory` (src/src/core/zip_processor.py
lines 151-267) over the discovery results: archive glob output (path and
content), loose-file listing, optional identifier filter, the fiscal-year
oracle of the modelled parser, and the per-path extractor outcome.  The
extraction loop (lines 237-259) runs over the selected candidates, then
the skipped-quarterly counter (lines 261-265) is filled in. -/
def process_mixed_directory (yearOf : String → Option Nat)
    (outcome : FPath → ExtractOutcome) (zips : List (String × ZipContent))
    (loose : List String) (filt : Option (List String)) : MixedStats :=
  { (mixedProcessCands yearOf zips loose filt).foldl
      (mixedStep outcome (mixedZipFiles zips filt))
      (mixedInit zips loose filt) with
    skipped_10q := (mixedSkipCands yearOf zips loose filt).countP
      isSkipped10q }

/-- All candidates held by a registry, across its groups. -/
def regCands (reg : Registry) : List Cand := (reg.map Prod.snd).flatten

/-- Follows the spec's words for the contrast drawn in §8's filter
scenario: plain identifier-only filtering — no Annual restriction — admits
a candidate iff its extracted filer id is present and in the filter
set. -/
def match_id_only (fl : List String) (name : String) : Bool :=
  match extract_cik_from_name name with
  | some cik => fl.contains cik
  | none => false

/-! ## Concrete data used by witness instantiations -/

/-- A concrete Annual candidate. -/
def wCandA : Cand := ⟨⟨"input", "edgar_data_1_10-K.txt"⟩, FormType.annual⟩

/-- A concrete Quarterly candidate. -/
def wCandQ : Cand := ⟨⟨"input", "edgar_data_1_10-Q.txt"⟩, FormType.quarterly⟩

/-- A concrete Other-bucket candidate. -/
def wCandO : Cand := ⟨⟨"input", "edgar_data_1_8-K.txt"⟩, FormType.other⟩

/-- A concrete selection group holding all three buckets. -/
def wGroup : GroupKey × List Cand :=
  (("0000000001", 2020), [wCandQ, wCandA, wCandO])

/-- A concrete one-group registry. -/
def wReg : Registry := [wGroup]

/-! ## Lemmas about the regex-scan model -/

lemma labeledAt_nil : labeledAt [] = none := rfl

lemma searchLabeled_eq_none_iff (cs : List Char) :
    searchLabeled cs = none ↔ ∀ i, labeledAt (cs.drop i) = none := by
  induction cs with
  | nil => simp [searchLabeled, List.drop_nil, labeledAt_nil]
  | cons c rest ih =>
    simp only [searchLabeled]
    cases h : labeledAt (c :: rest) with
    | some ds =>
      constructor
      · intro hc; cases hc
      · intro hall
        have h0 := hall 0
        rw [List.drop_zero] at h0
        rw [h0] at h; cases h
    | none =>
      rw [ih]
      constructor
      · intro hall i
        cases i with
        | zero => simpa using h
        | succ j =>
          rw [List.drop_succ_cons]
          exact hall j
      · intro hall j
        have hj := hall (j + 1)
        rwa [List.drop_succ_cons] at hj

lemma bareAt_nil : bareAt [] = none := rfl

lemma searchBare_eq_none_iff (cs : List Char) :
    searchBare cs = none ↔ ∀ i, bareAt (cs.drop i) = none := by
  induction cs with
  | nil => simp [searchBare, List.drop_nil, bareAt_nil]
  | cons c rest ih =>
    simp only [searchBare]
    cases h : bareAt (c :: rest) with
    | some ds =>
      constructor
      · intro hc; cases hc
      · intro hall
        have h0 := hall 0
        rw [List.drop_zero] at h0
        rw [h0] at h; cases h
    | none =>
      rw [ih]
      constructor
      · intro hall i
        cases i with
        | zero => simpa using h
        | succ j =>
          rw [List.drop_succ_cons]
          exact hall j
      · intro hall j
        have hj := hall (j + 1)
        rwa [List.drop_succ_cons] at hj

lemma searchLabeled_leftmost (cs : List Char) :
    searchLabeled cs =
      ((List.range (cs.length + 1)).filterMap
        (fun i => labeledAt (cs.drop i))).head? := by
  induction cs with
  | nil => simp [searchLabeled, labeledAt_nil, List.range_succ]
  | cons c rest ih =>
    cases h : labeledAt (c :: rest) with
    | some ds =>
      have hL : searchLabeled (c :: rest) = some ds := by
        simp [searchLabeled, h]
      rw [hL, List.length_cons, List.range_succ_eq_map, List.filterMap_cons]
      simp [List.drop_zero, h]
    | none =>
      have hL : searchLabeled (c :: rest) = searchLabeled rest := by
        simp [searchLabeled, h]
      have hR : ((List.range ((c :: rest).length + 1)).filterMap
          (fun i => labeledAt ((c :: rest).drop i))).head? =
          ((List.range (rest.length + 1)).filterMap
            (fun i => labeledAt (rest.drop i))).head? := by
        rw [List.length_cons, List.range_succ_eq_map, List.filterMap_cons]
        simp only [List.drop_zero, h, List.filterMap_map]
        congr 1
      rw [hL, hR, ih]

lemma searchBare_leftmost (cs : List Char) :
    searchBare cs =
      ((List.range (cs.length + 1)).filterMap
        (fun i => bareAt (cs.drop i))).head? := by
  induction cs with
  | nil => simp [searchBare, bareAt_nil, List.range_succ]
  | cons c rest ih =>
    cases h : bareAt (c :: rest) with
    | some ds =>
      have hL : searchBare (c :: rest) = some ds := by
        simp [searchBare, h]
      rw [hL, List.length_cons, List.range_succ_eq_map, List.filterMap_cons]
      simp [List.drop_zero, h]
    | none =>
      have hL : searchBare (c :: rest) = searchBare rest := by
        simp [searchBare, h]
      have hR : ((List.range ((c :: rest).length + 1)).filterMap
          (fun i => bareAt ((c :: rest).drop i))).head? =
          ((List.range (rest.length + 1)).filterMap
            (fun i => bareAt (rest.drop i))).head? := by
        rw [List.length_cons, List.range_succ_eq_map, List.filterMap_cons]
        simp only [List.drop_zero, h, List.filterMap_map]
        congr 1
      rw [hL, hR, ih]

lemma takeDigits_length (n : Nat) (cs : List Char) :
    (takeDigits n cs).length ≤ n := by
  exact List.length_take_le n (cs.takeWhile Char.isDigit)

lemma takeDigits_digit (n : Nat) (cs : List Char) :
    ∀ c ∈ takeDigits n cs, c.isDigit = true := by
  intro c hc
  exact List.mem_takeWhile_imp (List.mem_of_mem_take hc)

lemma searchLabeled_shape (cs : List Char) (ds : List Char)
    (h : searchLabeled cs = some ds) :
    ds ≠ [] ∧ ds.length ≤ 10 ∧ ∀ c ∈ ds, c.isDigit = true := by
  induction cs with
  | nil => cases h
  | cons c rest ih =>
    rw [searchLabeled] at h
    cases hl : labeledAt (c :: rest) with
    | some ds0 =>
      rw [hl] at h
      cases h
      rw [labeledAt] at hl
      by_cases hp : isPrefixL "edgar_data_".toList (c :: rest) = true
      · rw [if_pos hp] at hl
        cases ht : takeDigits 10 ((c :: rest).drop 11) with
        | nil => rw [ht] at hl; cases hl
        | cons d dtl =>
          rw [ht] at hl
          cases hl
          refine ⟨by simp, ?_, ?_⟩
          · rw [← ht]; exact takeDigits_length 10 _
          · intro x hx; rw [← ht] at hx; exact takeDigits_digit 10 _ x hx
      · rw [if_neg hp] at hl; cases hl
    | none =>
      rw [hl] at h
      exact ih h

lemma searchBare_shape (cs : List Char) (ds : List Char)
    (h : searchBare cs = some ds) :
    ds ≠ [] ∧ ds.length ≤ 10 ∧ ∀ c ∈ ds, c.isDigit = true := by
  induction cs with
  | nil => cases h
  | cons c rest ih =>
    rw [searchBare] at h
    cases hl : bareAt (c :: rest) with
    | some ds0 =>
      rw [hl] at h
      cases h
      rw [bareAt] at hl
      by_cases h4 : 4 ≤ (takeDigits 10 (c :: rest)).length
      · simp only [if_pos h4] at hl
        cases hl
        refine ⟨?_, takeDigits_length 10 _, takeDigits_digit 10 _⟩
        intro hnil
        rw [hnil] at h4
        simp at h4
      · simp only [if_neg h4] at hl
        cases hl
    | none =>
      rw [hl] at h
      exact ih h

lemma toList_mk (l : List Char) : (String.mk l).toList = l := rfl

lemma zfill_shape (ds : List Char) (h1 : ds.length ≤ 10)
    (h2 : ∀ c ∈ ds, c.isDigit = true) (h3 : ds ≠ []) :
    (zfill 10 (String.mk ds)).toList.length = 10 ∧
      ∀ c ∈ (zfill 10 (String.mk ds)).toList, c.isDigit = true := by
  cases ds with
  | nil => exact absurd rfl h3
  | cons d rest =>
    have hd : d.isDigit = true := h2 d (by simp)
    have hsign : ¬(d = '+' ∨ d = '-') := by
      rintro (h | h) <;> rw [h] at hd <;> simp [Char.isDigit] at hd
    by_cases hle : 10 ≤ (d :: rest).length
    · have hz : zfill 10 (String.mk (d :: rest)) = String.mk (d :: rest) := by
        rw [zfill, toList_mk, if_pos hle]
      rw [hz, toList_mk]
      exact ⟨Nat.le_antisymm h1 hle, h2⟩
    · have hz : zfill 10 (String.mk (d :: rest)) =
          String.mk (List.replicate (10 - (d :: rest).length) '0' ++
            (d :: rest)) := by
        rw [zfill, toList_mk, if_neg hle]
        exact if_neg hsign
      rw [hz, toList_mk]
      constructor
      · rw [List.length_append, List.length_replicate]
        omega
      · intro c hc
        rcases List.mem_append.mp hc with hrep | hmem
        · rw [List.eq_of_mem_replicate hrep]; decide
        · exact h2 c hmem

/-- C5: for every filename, filer-id extraction first scans for the labeled
pattern "edgar_data_" followed by 1-10 digits (leftmost occurrence wins);
only when no position matches does it fall back to the first (leftmost)
bare run of 4-10 digits; when neither pattern occurs anywhere the result is
absent; and any returned identifier is zero-padded to exactly 10 digits. -/
theorem c5_filer_id_extraction (s : String) :
    extract_cik_from_name s =
      (Option.orElse (searchLabeled s.toList)
        (fun _ => searchBare s.toList)).map
          (fun ds => zfill 10 (String.mk ds)) ∧
    searchLabeled s.toList =
      ((List.range (s.toList.length + 1)).filterMap
        (fun i => labeledAt (s.toList.drop i))).head? ∧
    searchBare s.toList =
      ((List.range (s.toList.length + 1)).filterMap
        (fun i => bareAt (s.toList.drop i))).head? ∧
    (extract_cik_from_name s = none ↔
      (∀ i, labeledAt (s.toList.drop i) = none) ∧
        (∀ i, bareAt (s.toList.drop i) = none)) ∧
    (extract_cik_from_name s).all
      (fun r => r.toList.length == 10 && r.toList.all Char.isDigit) = true := by
  refine ⟨?_, searchLabeled_leftmost _, searchBare_leftmost _, ?_, ?_⟩
  · rw [extract_cik_from_name]
    cases hl : searchLabeled s.toList with
    | some ds => rfl
    | none =>
      cases hb : searchBare s.toList with
      | some ds => rfl
      | none => rfl
  · rw [extract_cik_from_name]
    cases hl : searchLabeled s.toList with
    | some ds =>
      constructor
      · intro hc; cases hc
      · intro hall
        rw [(searchLabeled_eq_none_iff s.toList).mpr hall.1] at hl
        cases hl
    | none =>
      cases hb : searchBare s.toList with
      | some ds =>
        constructor
        · intro hc; cases hc
        · intro hall
          rw [(searchBare_eq_none_iff s.toList).mpr hall.2] at hb
          cases hb
      | none =>
        exact ⟨fun _ => ⟨(searchLabeled_eq_none_iff s.toList).mp hl,
          (searchBare_eq_none_iff s.toList).mp hb⟩, fun _ => rfl⟩
  · rw [extract_cik_from_name]
    cases hl : searchLabeled s.toList with
    | some ds =>
      obtain ⟨hne, hlen, hdig⟩ := searchLabeled_shape _ _ hl
      obtain ⟨hzl, hzd⟩ := zfill_shape ds hlen hdig hne
      show ((zfill 10 (String.mk ds)).toList.length == 10 &&
        (zfill 10 (String.mk ds)).toList.all Char.isDigit) = true
      rw [Bool.and_eq_true]
      exact ⟨beq_iff_eq.mpr hzl, List.all_eq_true.mpr hzd⟩
    | none =>
      cases hb : searchBare s.toList with
      | some ds =>
        obtain ⟨hne, hlen, hdig⟩ := searchBare_shape _ _ hb
        obtain ⟨hzl, hzd⟩ := zfill_shape ds hlen hdig hne
        show ((zfill 10 (String.mk ds)).toList.length == 10 &&
          (zfill 10 (String.mk ds)).toList.all Char.isDigit) = true
        rw [Bool.and_eq_true]
        exact ⟨beq_iff_eq.mpr hzl, List.all_eq_true.mpr hzd⟩
      | none => rfl

example : extract_cik_from_name "edgar_data_12345_10-K.txt" = some "0000012345" := by decide
example : extract_cik_from_name "EDGAR_DATA_55_10-K.TXT" = none := by decide
example : extract_cik_from_name "report_987654_x.txt" = some "0000987654" := by decide
example : is_10k "edgar_data_12345_10-Q.txt" = false := by decide
example : is_10k "edgar_data_12345_10-K.txt" = true := by decide
example : cik_loader_load [["abc"]] = ["0000000abc"] := by decide
example : cik_filter_load [["abc"]] = [] := by decide
example : cik_filter_load [["123456"], ["0000123456"]] = ["0000123456"] := by decide

/-! ## Lemmas about the identifier set loaders -/

lemma mem_insertUnique (l : List String) (s x : String) :
    x ∈ insertUnique l s ↔ x ∈ l ∨ x = s := by
  rw [insertUnique]
  by_cases h : s ∈ l
  · rw [if_pos h]
    constructor
    · exact Or.inl
    · rintro (hx | rfl)
      · exact hx
      · exact h
  · rw [if_neg h, List.mem_append, List.mem_singleton]

lemma mem_loadFold (f : List String → List String → List String)
    (P : List String → String → Prop)
    (hf : ∀ acc row x, x ∈ f acc row ↔ x ∈ acc ∨ P row x) :
    ∀ (rows : List (List String)) (acc : List String) (x : String),
      x ∈ rows.foldl f acc ↔ x ∈ acc ∨ ∃ row ∈ rows, P row x := by
  intro rows
  induction rows with
  | nil => intro acc x; simp
  | cons r rs ih =>
    intro acc x
    rw [List.foldl_cons, ih, hf]
    constructor
    · rintro ((hx | hp) | ⟨row, hrow, hP⟩)
      · exact Or.inl hx
      · exact Or.inr ⟨r, by simp, hp⟩
      · exact Or.inr ⟨row, by simp [hrow], hP⟩
    · rintro (hx | ⟨row, hrow, hP⟩)
      · exact Or.inl (Or.inl hx)
      · rcases List.mem_cons.mp hrow with rfl | hrow2
        · exact Or.inl (Or.inr hP)
        · exact Or.inr ⟨row, hrow2, hP⟩

lemma mem_cik_filter_row (acc row : List String) (x : String) :
    x ∈ cik_filter_row acc row ↔ x ∈ acc ∨ ∃ f0 rest, row = f0 :: rest ∧
      (stripStr f0).toList.filter Char.isDigit ≠ [] ∧
      x = zfill 10 (String.mk ((stripStr f0).toList.filter Char.isDigit)) := by
  cases row with
  | nil => simp [cik_filter_row]
  | cons f0 rest =>
    simp only [cik_filter_row]
    by_cases h0 : (stripStr f0).toList.isEmpty = true
    · have h0l : (stripStr f0).toList = [] := by
        cases hl : (stripStr f0).toList with
        | nil => rfl
        | cons a as => rw [hl] at h0; cases h0
      rw [if_pos h0]
      constructor
      · exact Or.inl
      · rintro (hx | ⟨f1, r1, heq, hne, hxe⟩)
        · exact hx
        · injection heq with he1 he2
          subst he1
          rw [h0l] at hne
          exact absurd rfl hne
    · rw [if_neg h0]
      by_cases h1 : ((stripStr f0).toList.filter Char.isDigit).isEmpty = true
      · have h1l : (stripStr f0).toList.filter Char.isDigit = [] := by
          cases hl : (stripStr f0).toList.filter Char.isDigit with
          | nil => rfl
          | cons a as => rw [hl] at h1; cases h1
        rw [if_pos h1]
        constructor
        · exact Or.inl
        · rintro (hx | ⟨f1, r1, heq, hne, hxe⟩)
          · exact hx
          · injection heq with he1 he2
            subst he1
            exact absurd h1l hne
      · have h1l : (stripStr f0).toList.filter Char.isDigit ≠ [] := by
          intro hh
          rw [hh] at h1
          exact h1 rfl
        rw [if_neg h1, mem_insertUnique]
        constructor
        · rintro (hx | rfl)
          · exact Or.inl hx
          · exact Or.inr ⟨f0, rest, rfl, h1l, rfl⟩
        · rintro (hx | ⟨f1, r1, heq, hne, hxe⟩)
          · exact Or.inl hx
          · injection heq with he1 he2
            subst he1
            exact Or.inr hxe

lemma mem_cik_loader_row (acc row : List String) (x : String) :
    x ∈ cik_loader_row acc row ↔ x ∈ acc ∨ ∃ f0 rest, row = f0 :: rest ∧
      (stripStr f0).toList ≠ [] ∧ x = zfill 10 (stripStr f0) := by
  cases row with
  | nil => simp [cik_loader_row]
  | cons f0 rest =>
    simp only [cik_loader_row]
    by_cases h0 : (stripStr f0).toList.isEmpty = true
    · have h0l : (stripStr f0).toList = [] := by
        cases hl : (stripStr f0).toList with
        | nil => rfl
        | cons a as => rw [hl] at h0; cases h0
      rw [if_pos h0]
      constructor
      · exact Or.inl
      · rintro (hx | ⟨f1, r1, heq, hne, hxe⟩)
        · exact hx
        · injection heq with he1 he2
          subst he1
          exact absurd h0l hne
    · have h0l : (stripStr f0).toList ≠ [] := by
        intro hh
        rw [hh] at h0
        exact h0 rfl
      rw [if_neg h0, mem_insertUnique]
      constructor
      · rintro (hx | rfl)
        · exact Or.inl hx
        · exact Or.inr ⟨f0, rest, rfl, h0l, rfl⟩
      · rintro (hx | ⟨f1, r1, heq, hne, hxe⟩)
        · exact Or.inl hx
        · injection heq with he1 he2
          subst he1
          exact Or.inr hxe

/-- C6 counterexample: `cik_loader.load_cik_list` on the single row
`["abc"]` — whose first field contains no digit — still contributes an
element ("0000000abc") to the loaded set, so the claim that such a row
contributes nothing is false for this loader. -/
theorem c6_counterexample_loader_keeps_nondigit_row :
    cik_loader_load [["abc"]] ≠ [] := by decide

/-- C6 amended: `cik_filter.load_cik_list` behaves as the claim states (an
element is loaded iff some row's first field keeps at least one digit after
stripping non-digits, and it is that digit string zero-padded to 10);
`cik_loader.load_cik_list` instead zero-pads the raw whitespace-stripped
first field without removing non-digit characters, so a digit-free field
contributes its padded raw value; both map "123456" and "0000123456" to
"0000123456". -/
theorem c6_amended_identifier_loading (rows : List (List String))
    (x : String) :
    (x ∈ cik_filter_load rows ↔ ∃ row ∈ rows, ∃ f0 rest, row = f0 :: rest ∧
      (stripStr f0).toList.filter Char.isDigit ≠ [] ∧
      x = zfill 10 (String.mk ((stripStr f0).toList.filter Char.isDigit))) ∧
    (x ∈ cik_loader_load rows ↔ ∃ row ∈ rows, ∃ f0 rest, row = f0 :: rest ∧
      (stripStr f0).toList ≠ [] ∧ x = zfill 10 (stripStr f0)) ∧
    cik_filter_load [["123456"], ["0000123456"]] = ["0000123456"] ∧
    cik_loader_load [["123456"], ["0000123456"]] = ["0000123456"] := by
  refine ⟨?_, ?_, by decide, by decide⟩
  · rw [cik_filter_load, mem_loadFold cik_filter_row _ mem_cik_filter_row
      rows [] x]
    simp
  · rw [cik_loader_load, mem_loadFold cik_loader_row _ mem_cik_loader_row
      rows [] x]
    simp

/-! ## Lemmas about the selection engine -/

lemma chooseFrom_mem (cs : List Cand) (w : Cand) (h : chooseFrom cs = some w) :
    w ∈ cs := by
  rw [chooseFrom] at h
  cases ha : cs.filter (fun c => c.form == FormType.annual) with
  | cons a t =>
    rw [ha] at h
    injection h with h
    subst h
    refine List.mem_of_mem_filter (p := fun c => c.form == FormType.annual) ?_
    rw [ha]
    exact List.mem_cons_self _ _
  | nil =>
    rw [ha] at h
    cases hq : cs.filter (fun c => c.form == FormType.quarterly) with
    | cons a t =>
      rw [hq] at h
      injection h with h
      subst h
      refine List.mem_of_mem_filter (p := fun c => c.form == FormType.quarterly) ?_
      rw [hq]
      exact List.mem_cons_self _ _
    | nil =>
      rw [hq] at h
      cases cs with
      | nil => cases h
      | cons a t =>
        injection h with h
        subst h
        exact List.mem_cons_self _ _

lemma chooseFrom_annual (cs : List Cand) (c0 : Cand) (hc0 : c0 ∈ cs)
    (ha : c0.form = FormType.annual) :
    ∃ w, chooseFrom cs = some w ∧ w.form = FormType.annual := by
  have hmem : c0 ∈ cs.filter (fun c => c.form == FormType.annual) :=
    List.mem_filter.mpr ⟨hc0, by rw [ha]; rfl⟩
  cases hf : cs.filter (fun c => c.form == FormType.annual) with
  | nil => rw [hf] at hmem; cases hmem
  | cons a t =>
    refine ⟨a, ?_, ?_⟩
    · rw [chooseFrom, hf]
    · have hmem2 : a ∈ cs.filter (fun c => c.form == FormType.annual) := by
        rw [hf]
        exact List.mem_cons_self _ _
      exact beq_iff_eq.mp (List.mem_filter.mp hmem2).2

lemma mem_selectProcess (reg : Registry) (c : Cand) :
    c ∈ selectProcess reg ↔ ∃ g ∈ reg, chooseFrom g.2 = some c := by
  rw [selectProcess, List.mem_filterMap]

lemma mem_selectSkip (reg : Registry) (c : Cand) :
    c ∈ selectSkip reg ↔ ∃ g ∈ reg, c ∈ skipOf g := by
  rw [selectSkip, List.mem_flatten]
  constructor
  · rintro ⟨l, hl, hc⟩
    rcases List.mem_map.mp hl with ⟨g, hgmem, rfl⟩
    exact ⟨g, hgmem, hc⟩
  · rintro ⟨g, hgmem, hc⟩
    exact ⟨skipOf g, List.mem_map_of_mem _ hgmem, hc⟩

lemma skipOf_subset (g : GroupKey × List Cand) (c : Cand)
    (h : c ∈ skipOf g) : c ∈ g.2 := by
  rw [skipOf] at h
  cases hw : chooseFrom g.2 with
  | some w =>
    rw [hw] at h
    exact List.mem_of_mem_erase h
  | none =>
    rw [hw] at h
    exact h

lemma selectProcess_countP (reg : Registry) (hnd : reg.Nodup)
    (hdisj : ∀ g1, g1 ∈ reg → ∀ g2, g2 ∈ reg → g1 ≠ g2 →
      ∀ c, c ∈ g1.2 → c ∉ g2.2)
    (g : GroupKey × List Cand) (hg : g ∈ reg) (w : Cand)
    (hw : chooseFrom g.2 = some w) :
    (selectProcess reg).countP (fun c => decide (c ∈ g.2)) = 1 := by
  induction reg with
  | nil => cases hg
  | cons e rest ih =>
    have hndr : rest.Nodup := hnd.of_cons
    have hdisjr : ∀ g1, g1 ∈ rest → ∀ g2, g2 ∈ rest → g1 ≠ g2 →
        ∀ c, c ∈ g1.2 → c ∉ g2.2 := fun g1 h1 g2 h2 =>
      hdisj g1 (List.mem_cons_of_mem _ h1) g2 (List.mem_cons_of_mem _ h2)
    have hnotmem : e ∉ rest := (List.nodup_cons.mp hnd).1
    rcases List.mem_cons.mp hg with rfl | hg2
    · have hsp : selectProcess (g :: rest) = w :: selectProcess rest := by
        rw [selectProcess, List.filterMap_cons, hw]
        rfl
      rw [hsp, List.countP_cons]
      have hwm : decide (w ∈ g.2) = true := decide_eq_true (chooseFrom_mem g.2 w hw)
      have hzero : (selectProcess rest).countP (fun c => decide (c ∈ g.2)) = 0 := by
        rw [List.countP_eq_zero]
        intro c hc
        obtain ⟨g2, hg2m, hw2⟩ := (mem_selectProcess rest c).mp hc
        have hne : g2 ≠ g := fun hh => hnotmem (hh ▸ hg2m)
        have : c ∉ g.2 := hdisj g2 (List.mem_cons_of_mem _ hg2m) g
          (List.mem_cons_self _ _) hne c (chooseFrom_mem g2.2 c hw2)
        simpa using this
      rw [hzero, hwm]
      simp
    · have hcount := ih hndr hdisjr hg2
      have hne : e ≠ g := fun hh => hnotmem (hh ▸ hg2)
      cases hwe : chooseFrom e.2 with
      | some we =>
        have hsp : selectProcess (e :: rest) = we :: selectProcess rest := by
          rw [selectProcess, List.filterMap_cons, hwe]
          rfl
        rw [hsp, List.countP_cons]
        have hnotin : we ∉ g.2 := hdisj e (List.mem_cons_self _ _) g
          (List.mem_cons_of_mem _ hg2) hne we (chooseFrom_mem e.2 we hwe)
        have hfalse : decide (we ∈ g.2) = false := decide_eq_false hnotin
        rw [hcount, hfalse]
        simp
      | none =>
        have hsp : selectProcess (e :: rest) = selectProcess rest := by
          rw [selectProcess, List.filterMap_cons, hwe]
          rfl
        rw [hsp, hcount]

/-- C1: for every registry whose groups hold pairwise-disjoint candidate
lists, every group containing an Annual-bucket candidate gets exactly one
candidate into `process`; that candidate is Annual-typed and belongs to the
group, and every other member of the group (Quarterly, Other, and extra
Annual duplicates alike) lands in `skip`. -/
theorem c1_annual_precedence (reg : Registry) (hnd : reg.Nodup)
    (hdisj : ∀ g1, g1 ∈ reg → ∀ g2, g2 ∈ reg → g1 ≠ g2 →
      ∀ c, c ∈ g1.2 → c ∉ g2.2)
    (g : GroupKey × List Cand) (hg : g ∈ reg)
    (c0 : Cand) (hc0 : c0 ∈ g.2) (hc0a : c0.form = FormType.annual) :
    ∃ w, chooseFrom g.2 = some w ∧ w ∈ g.2 ∧ w.form = FormType.annual ∧
      w ∈ selectProcess reg ∧
      (selectProcess reg).countP (fun c => decide (c ∈ g.2)) = 1 ∧
      ∀ c, c ∈ g.2 → c ≠ w → c ∈ selectSkip reg := by
  obtain ⟨w, hw, hwa⟩ := chooseFrom_annual g.2 c0 hc0 hc0a
  have hwm : w ∈ g.2 := chooseFrom_mem g.2 w hw
  refine ⟨w, hw, hwm, hwa, ?_, ?_, ?_⟩
  · exact (mem_selectProcess reg w).mpr ⟨g, hg, hw⟩
  · exact selectProcess_countP reg hnd hdisj g hg w hw
  · intro c hc hcw
    refine (mem_selectSkip reg c).mpr ⟨g, hg, ?_⟩
    rw [skipOf, hw]
    exact (List.mem_erase_of_ne hcw).mpr hc

/-- C2: the selection partitions every group's candidates — each group
member goes to `process` or to `skip`, everything in `process` or `skip`
comes from some group, and `process` and `skip` are disjoint (for
registries whose groups are duplicate-free and pairwise disjoint, which is
what registration produces). -/
theorem c2_selection_partition (reg : Registry)
    (hcnd : ∀ g, g ∈ reg → g.2.Nodup)
    (hdisj : ∀ g1, g1 ∈ reg → ∀ g2, g2 ∈ reg → g1 ≠ g2 →
      ∀ c, c ∈ g1.2 → c ∉ g2.2) :
    (∀ g, g ∈ reg → ∀ c, c ∈ g.2 →
      c ∈ selectProcess reg ∨ c ∈ selectSkip reg) ∧
    (∀ c, c ∈ selectProcess reg ∨ c ∈ selectSkip reg →
      ∃ g ∈ reg, c ∈ g.2) ∧
    (∀ c, c ∈ selectProcess reg → c ∉ selectSkip reg) := by
  refine ⟨?_, ?_, ?_⟩
  · intro g hg c hc
    cases hw : chooseFrom g.2 with
    | some w =>
      by_cases hcw : c = w
      · subst hcw
        exact Or.inl ((mem_selectProcess reg c).mpr ⟨g, hg, hw⟩)
      · refine Or.inr ((mem_selectSkip reg c).mpr ⟨g, hg, ?_⟩)
        rw [skipOf, hw]
        exact (List.mem_erase_of_ne hcw).mpr hc
    | none =>
      refine Or.inr ((mem_selectSkip reg c).mpr ⟨g, hg, ?_⟩)
      rw [skipOf, hw]
      exact hc
  · intro c hc
    rcases hc with hp | hs
    · obtain ⟨g, hg, hw⟩ := (mem_selectProcess reg c).mp hp
      exact ⟨g, hg, chooseFrom_mem g.2 c hw⟩
    · obtain ⟨g, hg, hsk⟩ := (mem_selectSkip reg c).mp hs
      exact ⟨g, hg, skipOf_subset g c hsk⟩
  · intro c hp hs
    obtain ⟨g1, hg1, hw1⟩ := (mem_selectProcess reg c).mp hp
    obtain ⟨g2, hg2, hsk⟩ := (mem_selectSkip reg c).mp hs
    by_cases heq : g1 = g2
    · subst heq
      rw [skipOf, hw1] at hsk
      exact ((hcnd g1 hg1).mem_erase_iff.mp hsk).1 rfl
    · exact hdisj g1 hg1 g2 hg2 heq c (chooseFrom_mem g1.2 c hw1)
        (skipOf_subset g2 c hsk)

/-- Witness for C1 at a concrete registry with one group holding a
Quarterly, an Annual and an Other candidate. -/
theorem c1_annual_precedence_witness :
    ∃ w, chooseFrom wGroup.2 = some w ∧ w ∈ wGroup.2 ∧
      w.form = FormType.annual ∧
      w ∈ selectProcess wReg ∧
      (selectProcess wReg).countP (fun c => decide (c ∈ wGroup.2)) = 1 ∧
      ∀ c, c ∈ wGroup.2 → c ≠ w → c ∈ selectSkip wReg :=
  c1_annual_precedence wReg (by decide) (by decide) wGroup (by decide)
    wCandA (by decide) (by decide)

/-- Witness for C2 at the same concrete registry. -/
theorem c2_selection_partition_witness :
    (∀ g, g ∈ wReg → ∀ c, c ∈ g.2 →
      c ∈ selectProcess wReg ∨ c ∈ selectSkip wReg) ∧
    (∀ c, c ∈ selectProcess wReg ∨ c ∈ selectSkip wReg →
      ∃ g ∈ wReg, c ∈ g.2) ∧
    (∀ c, c ∈ selectProcess wReg → c ∉ selectSkip wReg) :=
  c2_selection_partition wReg (by decide) (by decide)

/-! ## Lemmas about per-archive directory processing -/

lemma dirFold_stats (yearOf : String → Option Nat)
    (outcome : String → ExtractOutcome) (filt : Option (List String)) :
    ∀ (zips : List (String × ZipContent)) (acc : DirStats),
      (zips.foldl (dirStep yearOf outcome filt) acc).total_zips =
        acc.total_zips ∧
      (zips.foldl (dirStep yearOf outcome filt) acc).zip_stats =
        acc.zip_stats ++
          zips.map (fun z => process_zip_file yearOf outcome z.1 z.2 filt) ∧
      (zips.foldl (dirStep yearOf outcome filt) acc).total_files =
        acc.total_files +
          ((zips.map (fun z => process_zip_file yearOf outcome z.1 z.2
            filt)).map ZipStats.total_files).sum ∧
      (zips.foldl (dirStep yearOf outcome filt) acc).processed =
        acc.processed +
          ((zips.map (fun z => process_zip_file yearOf outcome z.1 z.2
            filt)).map ZipStats.processed).sum ∧
      (zips.foldl (dirStep yearOf outcome filt) acc).failed =
        acc.failed +
          ((zips.map (fun z => process_zip_file yearOf outcome z.1 z.2
            filt)).map ZipStats.failed).sum := by
  intro zips
  induction zips with
  | nil => intro acc; simp
  | cons z zs ih =>
    intro acc
    rw [List.foldl_cons]
    obtain ⟨ih1, ih2, ih3, ih4, ih5⟩ := ih (dirStep yearOf outcome filt acc z)
    refine ⟨?_, ?_, ?_, ?_, ?_⟩
    · rw [ih1]; rfl
    · rw [ih2]
      simp [dirStep, List.append_assoc]
    · rw [ih3]
      simp only [dirStep, List.map_cons, List.sum_cons]
      omega
    · rw [ih4]
      simp only [dirStep, List.map_cons, List.sum_cons]
      omega
    · rw [ih5]
      simp only [dirStep, List.map_cons, List.sum_cons]
      omega

/-- C10: in `process_directory`, the overall statistics are consistent
with the per-archive statistics — `total_zips` equals the number of
per-zip entries, and `total_files`, `processed` and `failed` are the sums
of the corresponding per-zip fields. -/
theorem c10_directory_totals_consistent (yearOf : String → Option Nat)
    (outcome : String → ExtractOutcome) (zips : List (String × ZipContent))
    (filt : Option (List String)) :
    (process_directory yearOf outcome zips filt).total_zips =
      (process_directory yearOf outcome zips filt).zip_stats.length ∧
    (process_directory yearOf outcome zips filt).total_files =
      ((process_directory yearOf outcome zips filt).zip_stats.map
        ZipStats.total_files).sum ∧
    (process_directory yearOf outcome zips filt).processed =
      ((process_directory yearOf outcome zips filt).zip_stats.map
        ZipStats.processed).sum ∧
    (process_directory yearOf outcome zips filt).failed =
      ((process_directory yearOf outcome zips filt).zip_stats.map
        ZipStats.failed).sum := by
  obtain ⟨h1, h2, h3, h4, h5⟩ := dirFold_stats yearOf outcome filt zips
    { total_zips := zips.length
      total_files := 0
      processed := 0
      failed := 0
      zip_stats := [] }
  rw [process_directory]
  rw [h1, h2, h3, h4, h5]
  refine ⟨?_, by simp, by simp, by simp⟩
  simp [List.length_map]

/-! ## Lemmas about the extraction loops -/

lemma zipStep_fields (outcome : String → ExtractOutcome) (st : ZipStats)
    (f : String) :
    (zipStep outcome st f).zip_file = st.zip_file ∧
    (zipStep outcome st f).total_files = st.total_files ∧
    (zipStep outcome st f).processed = st.processed +
      (if outcome f == ExtractOutcome.ok then 1 else 0) ∧
    (zipStep outcome st f).failed = st.failed +
      (if outcome f == ExtractOutcome.ok then 0 else 1) ∧
    (zipStep outcome st f).errors = st.errors ++
      (match outcome f with
       | ExtractOutcome.ok => []
       | ExtractOutcome.empty => [(f, "Extraction failed")]
       | ExtractOutcome.err m => [(f, m)]) := by
  cases ho : outcome f <;> simp [zipStep, ho]

lemma zipFold_stats (outcome : String → ExtractOutcome) :
    ∀ (files : List String) (st : ZipStats),
      (files.foldl (zipStep outcome) st).zip_file = st.zip_file ∧
      (files.foldl (zipStep outcome) st).total_files = st.total_files ∧
      (files.foldl (zipStep outcome) st).processed = st.processed +
        files.countP (fun f => outcome f == ExtractOutcome.ok) ∧
      (files.foldl (zipStep outcome) st).failed = st.failed +
        files.countP (fun f => !(outcome f == ExtractOutcome.ok)) ∧
      (files.foldl (zipStep outcome) st).errors = st.errors ++
        files.filterMap (fun f =>
          match outcome f with
          | ExtractOutcome.ok => none
          | ExtractOutcome.empty => some (f, "Extraction failed")
          | ExtractOutcome.err m => some (f, m)) := by
  intro files
  induction files with
  | nil => intro st; simp
  | cons f fs ih =>
    intro st
    rw [List.foldl_cons]
    obtain ⟨ih1, ih2, ih3, ih4, ih5⟩ := ih (zipStep outcome st f)
    obtain ⟨s1, s2, s3, s4, s5⟩ := zipStep_fields outcome st f
    refine ⟨?_, ?_, ?_, ?_, ?_⟩
    · rw [ih1, s1]
    · rw [ih2, s2]
    · rw [ih3, s3, List.countP_cons]
      cases hb : (outcome f == ExtractOutcome.ok) <;> simp [hb] <;> omega
    · rw [ih4, s4, List.countP_cons]
      cases hb : (outcome f == ExtractOutcome.ok) <;> simp [hb] <;> omega
    · rw [ih5, s5, List.filterMap_cons]
      cases ho : outcome f <;> simp [List.append_assoc]

lemma zipLoop_eq_dispatched (yearOf : String → Option Nat)
    (filt : Option (List String)) (outcome : String → ExtractOutcome) :
    ∀ (files : List String) (st : ZipStats),
      files.foldl (zipLoopStep yearOf filt outcome) st =
        (zipDispatched yearOf filt files).foldl (zipStep outcome) st := by
  cases filt with
  | none => intro files st; rfl
  | some fl =>
    intro files
    induction files with
    | nil => intro st; rfl
    | cons f fs ih =>
      intro st
      rw [List.foldl_cons]
      by_cases hp : zipSecondPass yearOf fl f = true
      · have hstep : zipLoopStep yearOf (some fl) outcome st f =
            zipStep outcome st f := by
          simp [zipLoopStep, hp]
        have hd : zipDispatched yearOf (some fl) (f :: fs) =
            f :: zipDispatched yearOf (some fl) fs := by
          simp [zipDispatched, List.filter_cons, hp]
        rw [hstep, ih, hd, List.foldl_cons]
      · have hstep : zipLoopStep yearOf (some fl) outcome st f = st := by
          simp [zipLoopStep, hp]
        have hd : zipDispatched yearOf (some fl) (f :: fs) =
            zipDispatched yearOf (some fl) fs := by
          simp [zipDispatched, List.filter_cons, hp]
        rw [hstep, ih, hd]

lemma mixedStep_fields (outcome : FPath → ExtractOutcome)
    (zfiles : List FPath) (st : MixedStats) (c : Cand) :
    (mixedStep outcome zfiles st c).combined_processed =
      st.combined_processed +
        (if outcome c.fp == ExtractOutcome.ok then 1 else 0) ∧
    (mixedStep outcome zfiles st c).combined_failed =
      st.combined_failed +
        (if outcome c.fp == ExtractOutcome.ok then 0 else 1) ∧
    (mixedStep outcome zfiles st c).errors = st.errors ++
      (match outcome c.fp with
       | ExtractOutcome.ok => []
       | ExtractOutcome.empty => [fpStr c.fp]
       | ExtractOutcome.err m => [fpStr c.fp ++ ": " ++ m]) ∧
    (mixedStep outcome zfiles st c).skipped_10q = st.skipped_10q := by
  cases ho : outcome c.fp <;> by_cases hz : c.fp ∈ zfiles <;>
    simp [mixedStep, ho, hz]

lemma mixedFold_stats (outcome : FPath → ExtractOutcome)
    (zfiles : List FPath) :
    ∀ (cands : List Cand) (st : MixedStats),
      (cands.foldl (mixedStep outcome zfiles) st).combined_processed =
        st.combined_processed +
          cands.countP (fun c => outcome c.fp == ExtractOutcome.ok) ∧
      (cands.foldl (mixedStep outcome zfiles) st).combined_failed =
        st.combined_failed +
          cands.countP (fun c => !(outcome c.fp == ExtractOutcome.ok)) ∧
      (cands.foldl (mixedStep outcome zfiles) st).errors = st.errors ++
        cands.filterMap (fun c =>
          match outcome c.fp with
          | ExtractOutcome.ok => none
          | ExtractOutcome.empty => some (fpStr c.fp)
          | ExtractOutcome.err m => some (fpStr c.fp ++ ": " ++ m)) ∧
      (cands.foldl (mixedStep outcome zfiles) st).skipped_10q =
        st.skipped_10q := by
  intro cands
  induction cands with
  | nil => intro st; simp
  | cons c cs ih =>
    intro st
    rw [List.foldl_cons]
    obtain ⟨ih1, ih2, ih3, ih4⟩ := ih (mixedStep outcome zfiles st c)
    obtain ⟨s1, s2, s3, s4⟩ := mixedStep_fields outcome zfiles st c
    refine ⟨?_, ?_, ?_, ?_⟩
    · rw [ih1, s1, List.countP_cons]
      cases hb : (outcome c.fp == ExtractOutcome.ok) <;> simp [hb] <;> omega
    · rw [ih2, s2, List.countP_cons]
      cases hb : (outcome c.fp == ExtractOutcome.ok) <;> simp [hb] <;> omega
    · rw [ih3, s3, List.filterMap_cons]
      cases ho : outcome c.fp <;> simp [List.append_assoc]
    · rw [ih4, s4]

lemma process_mixed_fields (yearOf : String → Option Nat)
    (outcome : FPath → ExtractOutcome) (zips : List (String × ZipContent))
    (loose : List String) (filt : Option (List String)) :
    (process_mixed_directory yearOf outcome zips loose
        filt).combined_processed =
      (mixedProcessCands yearOf zips loose filt).countP
        (fun c => outcome c.fp == ExtractOutcome.ok) ∧
    (process_mixed_directory yearOf outcome zips loose
        filt).combined_failed =
      (mixedProcessCands yearOf zips loose filt).countP
        (fun c => !(outcome c.fp == ExtractOutcome.ok)) ∧
    (process_mixed_directory yearOf outcome zips loose filt).errors =
      (mixedProcessCands yearOf zips loose filt).filterMap (fun c =>
        match outcome c.fp with
        | ExtractOutcome.ok => none
        | ExtractOutcome.empty => some (fpStr c.fp)
        | ExtractOutcome.err m => some (fpStr c.fp ++ ": " ++ m)) ∧
    (process_mixed_directory yearOf outcome zips loose filt).skipped_10q =
      (mixedSkipCands yearOf zips loose filt).countP isSkipped10q := by
  obtain ⟨m1, m2, m3, m4⟩ := mixedFold_stats outcome (mixedZipFiles zips filt)
    (mixedProcessCands yearOf zips loose filt) (mixedInit zips loose filt)
  refine ⟨?_, ?_, ?_, rfl⟩
  · have e : (process_mixed_directory yearOf outcome zips loose
        filt).combined_processed =
        ((mixedProcessCands yearOf zips loose filt).foldl
          (mixedStep outcome (mixedZipFiles zips filt))
          (mixedInit zips loose filt)).combined_processed := rfl
    rw [e, m1]
    simp [mixedInit]
  · have e : (process_mixed_directory yearOf outcome zips loose
        filt).combined_failed =
        ((mixedProcessCands yearOf zips loose filt).foldl
          (mixedStep outcome (mixedZipFiles zips filt))
          (mixedInit zips loose filt)).combined_failed := rfl
    rw [e, m2]
    simp [mixedInit]
  · have e : (process_mixed_directory yearOf outcome zips loose
        filt).errors =
        ((mixedProcessCands yearOf zips loose filt).foldl
          (mixedStep outcome (mixedZipFiles zips filt))
          (mixedInit zips loose filt)).errors := rfl
    rw [e, m3]
    simp [mixedInit]

/-- C9: for every candidate dispatched to the Content Extractor, a raised
error or a falsy result increments the failed counter and appends a
failure entry holding that file's path (with the message when one was
raised), and the loop runs to completion over the whole dispatch list —
the processed and failed counters tally exactly the successes and
non-successes of every dispatched candidate, in both the per-archive loop
and the mixed-directory loop. -/
theorem c9_extraction_failures_recorded (yearOf : String → Option Nat)
    (outcomeZ : String → ExtractOutcome) (p : String) (members : List String)
    (filt : Option (List String)) (outcomeM : FPath → ExtractOutcome)
    (zips : List (String × ZipContent)) (loose : List String)
    (filtM : Option (List String)) :
    (process_zip_file yearOf outcomeZ p (ZipContent.good members)
        filt).processed =
      (zipDispatched yearOf filt (zipCandidates filt members)).countP
        (fun f => outcomeZ f == ExtractOutcome.ok) ∧
    (process_zip_file yearOf outcomeZ p (ZipContent.good members)
        filt).failed =
      (zipDispatched yearOf filt (zipCandidates filt members)).countP
        (fun f => !(outcomeZ f == ExtractOutcome.ok)) ∧
    (process_zip_file yearOf outcomeZ p (ZipContent.good members)
        filt).errors =
      (zipDispatched yearOf filt (zipCandidates filt members)).filterMap
        (fun f =>
          match outcomeZ f with
          | ExtractOutcome.ok => none
          | ExtractOutcome.empty => some (f, "Extraction failed")
          | ExtractOutcome.err m => some (f, m)) ∧
    (process_mixed_directory yearOf outcomeM zips loose
        filtM).combined_processed =
      (mixedProcessCands yearOf zips loose filtM).countP
        (fun c => outcomeM c.fp == ExtractOutcome.ok) ∧
    (process_mixed_directory yearOf outcomeM zips loose
        filtM).combined_failed =
      (mixedProcessCands yearOf zips loose filtM).countP
        (fun c => !(outcomeM c.fp == ExtractOutcome.ok)) ∧
    (process_mixed_directory yearOf outcomeM zips loose filtM).errors =
      (mixedProcessCands yearOf zips loose filtM).filterMap (fun c =>
        match outcomeM c.fp with
        | ExtractOutcome.ok => none
        | ExtractOutcome.empty => some (fpStr c.fp)
        | ExtractOutcome.err m => some (fpStr c.fp ++ ": " ++ m)) := by
  obtain ⟨q1, q2, q3, _⟩ := process_mixed_fields yearOf outcomeM zips loose
    filtM
  have hpz : process_zip_file yearOf outcomeZ p (ZipContent.good members)
      filt =
      (zipDispatched yearOf filt (zipCandidates filt members)).foldl
        (zipStep outcomeZ)
        { zip_file := p
          total_files := (zipCandidates filt members).length
          processed := 0
          failed := 0
          errors := [] } := by
    rw [process_zip_file]
    exact zipLoop_eq_dispatched yearOf filt outcomeZ
      (zipCandidates filt members) _
  obtain ⟨f1, f2, f3, f4, f5⟩ := zipFold_stats outcomeZ
    (zipDispatched yearOf filt (zipCandidates filt members))
    { zip_file := p
      total_files := (zipCandidates filt members).length
      processed := 0
      failed := 0
      errors := [] }
  refine ⟨?_, ?_, ?_, q1, q2, q3⟩
  · rw [hpz, f3]
    simp
  · rw [hpz, f4]
    simp
  · rw [hpz, f5]
    simp

/-- C8 counterexample: a corrupt archive in a mixed-directory run yields NO
error entry in the returned statistics (the exception at line 187 is only
logged), refuting "recorded as exactly one error entry for that archive in
the run's statistics" for this mode. -/
theorem c8_counterexample_mixed_archive_error_unrecorded :
    (process_mixed_directory (fun _ => some 2020)
      (fun _ => ExtractOutcome.ok)
      [("bad.zip", ZipContent.bad "Invalid ZIP file")] [] none).errors =
      [] := by decide

/-- C8 amended: a malformed archive never aborts the run.  In per-archive
mode it yields exactly one error entry naming the archive and zero
counters, and each archive's statistics are computed independently of the
other archives; in mixed-directory mode the run continues exactly as if
the corrupt archive were absent — so its candidates contribute nothing,
other archives and loose files are fully processed, but no error entry is
recorded for it. -/
theorem c8_amended_bad_archive_handling :
    (∀ (yearOf : String → Option Nat) (outcome : String → ExtractOutcome)
      (p msg : String) (filt : Option (List String)),
      process_zip_file yearOf outcome p (ZipContent.bad msg) filt =
        { zip_file := p
          total_files := 0
          processed := 0
          failed := 0
          errors := [(p, msg)] }) ∧
    (∀ (yearOf : String → Option Nat) (outcome : String → ExtractOutcome)
      (zips : List (String × ZipContent)) (filt : Option (List String)),
      (process_directory yearOf outcome zips filt).zip_stats =
        zips.map (fun z => process_zip_file yearOf outcome z.1 z.2 filt)) ∧
    (∀ (yearOf : String → Option Nat) (outcome : FPath → ExtractOutcome)
      (p msg : String) (zips : List (String × ZipContent))
      (loose : List String) (filt : Option (List String)),
      process_mixed_directory yearOf outcome
          ((p, ZipContent.bad msg) :: zips) loose filt =
        process_mixed_directory yearOf outcome zips loose filt) := by
  refine ⟨fun _ _ _ _ _ => rfl, ?_, ?_⟩
  · intro yearOf outcome zips filt
    obtain ⟨_, h2, _, _, _⟩ := dirFold_stats yearOf outcome filt zips
      { total_zips := zips.length
        total_files := 0
        processed := 0
        failed := 0
        zip_stats := [] }
    rw [process_directory, h2]
    simp
  · intro yearOf outcome p msg zips loose filt
    have hz : mixedZipTextFiles ((p, ZipContent.bad msg) :: zips) =
        mixedZipTextFiles zips := by
      simp [mixedZipTextFiles]
    simp only [process_mixed_directory, mixedProcessCands, mixedSkipCands,
      mixedRegistry, mixedZipFiles, mixedInit, mixedAllText,
      mixedTextFiles, hz]

/-! ## Lemmas about registration and discovery -/

lemma mem_regCands (reg : Registry) (c : Cand) :
    c ∈ regCands reg ↔ ∃ g ∈ reg, c ∈ g.2 := by
  rw [regCands, List.mem_flatten]
  constructor
  · rintro ⟨l, hl, hc⟩
    rcases List.mem_map.mp hl with ⟨g, hgmem, rfl⟩
    exact ⟨g, hgmem, hc⟩
  · rintro ⟨g, hgmem, hc⟩
    exact ⟨g.2, List.mem_map_of_mem _ hgmem, hc⟩

lemma mem_addFiling (reg : Registry) (cik : String) (year : Nat)
    (cand : Cand) (c : Cand) (h : c ∈ regCands (addFiling reg cik year cand)) :
    c ∈ regCands reg ∨ c = cand := by
  induction reg with
  | nil =>
    rw [addFiling] at h
    rcases (mem_regCands _ c).mp h with ⟨g, hg, hcg⟩
    rcases List.mem_singleton.mp hg with rfl
    rcases List.mem_singleton.mp hcg with rfl
    exact Or.inr rfl
  | cons e rest ih =>
    rw [addFiling] at h
    by_cases hk : e.1 = (cik, year)
    · rw [if_pos hk] at h
      rcases (mem_regCands _ c).mp h with ⟨g, hg, hcg⟩
      rcases List.mem_cons.mp hg with rfl | hgrest
      · rcases List.mem_append.mp hcg with hc1 | hc2
        · exact Or.inl ((mem_regCands _ c).mpr ⟨e, List.mem_cons_self _ _, hc1⟩)
        · exact Or.inr (List.mem_singleton.mp hc2)
      · exact Or.inl ((mem_regCands _ c).mpr
          ⟨g, List.mem_cons_of_mem _ hgrest, hcg⟩)
    · rw [if_neg hk] at h
      rcases (mem_regCands _ c).mp h with ⟨g, hg, hcg⟩
      rcases List.mem_cons.mp hg with rfl | hgrest
      · exact Or.inl ((mem_regCands _ c).mpr ⟨e, List.mem_cons_self _ _, hcg⟩)
      · rcases ih ((mem_regCands _ c).mpr ⟨g, hgrest, hcg⟩) with hrest | heq
        · rcases (mem_regCands _ c).mp hrest with ⟨g2, hg2, hcg2⟩
          exact Or.inl ((mem_regCands _ c).mpr
            ⟨g2, List.mem_cons_of_mem _ hg2, hcg2⟩)
        · exact Or.inr heq

lemma registerStep_cases (yearOf : String → Option Nat)
    (filt : Option (List String)) (acc : Registry) (fp : FPath) (c : Cand)
    (h : c ∈ regCands (registerStep yearOf filt acc fp)) :
    c ∈ regCands acc ∨
      (classifyForm c.fp.name = some c.form ∧ c.fp = fp) := by
  simp only [registerStep] at h
  split at h
  · exact Or.inl h
  · split at h
    · rename_i cik year ft heq
      rcases mem_addFiling _ _ _ _ _ h with ha | rfl
      · exact Or.inl ha
      · refine Or.inr ⟨?_, rfl⟩
        have h22 := congrArg (fun t => t.2.2) heq
        simpa [parse_filename_metadata] using h22
    · exact Or.inl h

lemma buildRegistry_invariant (yearOf : String → Option Nat)
    (filt : Option (List String)) :
    ∀ (fps : List FPath) (acc : Registry) (c : Cand),
      c ∈ regCands (fps.foldl (registerStep yearOf filt) acc) →
      c ∈ regCands acc ∨
        (classifyForm c.fp.name = some c.form ∧ c.fp ∈ fps) := by
  intro fps
  induction fps with
  | nil => intro acc c h; exact Or.inl h
  | cons fp fps ih =>
    intro acc c h
    rw [List.foldl_cons] at h
    rcases ih (registerStep yearOf filt acc fp) c h with hstep | ⟨hcf, hfps⟩
    · rcases registerStep_cases yearOf filt acc fp c hstep with hacc | ⟨hcf, hfp⟩
      · exact Or.inl hacc
      · exact Or.inr ⟨hcf, hfp ▸ List.mem_cons_self _ _⟩
    · exact Or.inr ⟨hcf, List.mem_cons_of_mem _ hfps⟩

lemma mem_dedupeAux : ∀ (l seen : List FPath) (x : FPath),
    x ∈ dedupeAux seen l ↔ x ∈ l ∧ x ∉ seen := by
  intro l
  induction l with
  | nil => intro seen x; simp [dedupeAux]
  | cons a as ih =>
    intro seen x
    rw [dedupeAux]
    by_cases ha : a ∈ seen
    · rw [if_pos ha, ih]
      constructor
      · rintro ⟨hx, hn⟩
        exact ⟨List.mem_cons_of_mem _ hx, hn⟩
      · rintro ⟨hx, hn⟩
        rcases List.mem_cons.mp hx with rfl | hx2
        · exact absurd ha hn
        · exact ⟨hx2, hn⟩
    · rw [if_neg ha]
      constructor
      · intro hx
        rcases List.mem_cons.mp hx with rfl | hx2
        · exact ⟨List.mem_cons_self _ _, ha⟩
        · obtain ⟨h1, h2⟩ := (ih (a :: seen) x).mp hx2
          have hxa : x ∉ seen := fun hh => h2 (List.mem_cons_of_mem _ hh)
          exact ⟨List.mem_cons_of_mem _ h1, hxa⟩
      · rintro ⟨hx, hn⟩
        rcases List.mem_cons.mp hx with rfl | hx2
        · exact List.mem_cons_self _ _
        · by_cases hxa : x = a
          · subst hxa
            exact List.mem_cons_self _ _
          · refine List.mem_cons_of_mem _ ((ih (a :: seen) x).mpr ⟨hx2, ?_⟩)
            intro hh
            rcases List.mem_cons.mp hh with h1 | h2
            · exact hxa h1
            · exact hn h2

lemma dedupeAux_nodup : ∀ (l seen : List FPath),
    (dedupeAux seen l).Nodup := by
  intro l
  induction l with
  | nil => intro seen; simp [dedupeAux]
  | cons a as ih =>
    intro seen
    rw [dedupeAux]
    by_cases ha : a ∈ seen
    · rw [if_pos ha]
      exact ih seen
    · rw [if_neg ha]
      rw [List.nodup_cons]
      refine ⟨?_, ih (a :: seen)⟩
      intro hmem
      exact ((mem_dedupeAux as (a :: seen) a).mp hmem).2
        (List.mem_cons_self _ _)

lemma dedupeAux_sublist : ∀ (l seen : List FPath),
    List.Sublist (dedupeAux seen l) l := by
  intro l
  induction l with
  | nil => intro seen; simp [dedupeAux]
  | cons a as ih =>
    intro seen
    rw [dedupeAux]
    by_cases ha : a ∈ seen
    · rw [if_pos ha]
      exact (ih seen).trans (List.sublist_cons_self a as)
    · rw [if_neg ha]
      exact List.Sublist.cons₂ a (ih (a :: seen))

lemma mem_mixedAllText_match (zips : List (String × ZipContent))
    (loose : List String) (fl : List String) (fp : FPath)
    (h : fp ∈ mixedAllText zips loose (some fl)) :
    match_pred (some fl) fp = true := by
  rw [mixedAllText] at h
  rcases List.mem_append.mp h with h1 | h1
  · rw [mixedZipFiles, dedupeKeepFirst] at h1
    have h2 := ((mem_dedupeAux _ _ _).mp h1).1
    simp only [applyMatch] at h2
    exact (List.mem_filter.mp h2).2
  · rw [mixedTextFiles, dedupeKeepFirst] at h1
    have h2 := ((mem_dedupeAux _ _ _).mp h1).1
    simp only [applyMatch] at h2
    exact (List.mem_filter.mp h2).2

lemma selectProcess_subset_regCands (reg : Registry) (c : Cand)
    (h : c ∈ selectProcess reg) : c ∈ regCands reg := by
  obtain ⟨g, hg, hw⟩ := (mem_selectProcess reg c).mp h
  exact (mem_regCands reg c).mpr ⟨g, hg, chooseFrom_mem g.2 c hw⟩

lemma selectSkip_subset_regCands (reg : Registry) (c : Cand)
    (h : c ∈ selectSkip reg) : c ∈ regCands reg := by
  obtain ⟨g, hg, hsk⟩ := (mem_selectSkip reg c).mp h
  exact (mem_regCands reg c).mpr ⟨g, hg, skipOf_subset g c hsk⟩

lemma isSkipped10q_eq (c : Cand)
    (h : classifyForm c.fp.name = some c.form) :
    isSkipped10q c = (c.form == FormType.quarterly) := by
  rcases c with ⟨cfp, cform⟩
  cases cform <;> simp_all [isSkipped10q]

/-- C3: in mixed-directory processing the skipped-quarterly counter equals
the number of candidates in the skip set whose parsed form type is
Quarterly (equivalently, whose registered bucket is Quarterly); and in the
scenario of two loose files `edgar_data_12345_10-K.txt` and
`edgar_data_12345_10-Q.txt` registered for the same filer and fiscal year
with no identifier filter, only the 10-K file is selected for `process`
and the counter is exactly 1 whatever the extractor does. -/
theorem c3_skipped_quarterly_counter (yearOf : String → Option Nat)
    (outcome outcomeS : FPath → ExtractOutcome)
    (zips : List (String × ZipContent)) (loose : List String)
    (filt : Option (List String)) :
    ((process_mixed_directory yearOf outcome zips loose filt).skipped_10q =
      (mixedSkipCands yearOf zips loose filt).countP isSkipped10q) ∧
    ((mixedSkipCands yearOf zips loose filt).countP isSkipped10q =
      (mixedSkipCands yearOf zips loose filt).countP
        (fun c => c.form == FormType.quarterly)) ∧
    (mixedProcessCands (fun _ => some 2020) []
        ["edgar_data_12345_10-K.txt", "edgar_data_12345_10-Q.txt"] none =
      [⟨⟨"input", "edgar_data_12345_10-K.txt"⟩, FormType.annual⟩]) ∧
    ((process_mixed_directory (fun _ => some 2020) outcomeS []
        ["edgar_data_12345_10-K.txt", "edgar_data_12345_10-Q.txt"]
        none).skipped_10q = 1) := by
  refine ⟨rfl, ?_, by decide, ?_⟩
  · apply List.countP_congr
    intro c hc
    have hreg : c ∈ regCands (mixedRegistry yearOf zips loose filt) :=
      selectSkip_subset_regCands _ c hc
    rcases buildRegistry_invariant yearOf filt
      (mixedAllText zips loose filt) [] c hreg with habs | ⟨hcf, _⟩
    · simp [regCands] at habs
    · rw [isSkipped10q_eq c hcf]
  · have e : (process_mixed_directory (fun _ => some 2020) outcomeS []
        ["edgar_data_12345_10-K.txt", "edgar_data_12345_10-Q.txt"]
        none).skipped_10q =
        (mixedSkipCands (fun _ => some 2020) []
          ["edgar_data_12345_10-K.txt", "edgar_data_12345_10-Q.txt"]
          none).countP isSkipped10q := rfl
    rw [e]
    decide

/-- C4: in combined mode with an identifier filter, a candidate whose
extracted filer id is in the filter set but whose form type is Quarterly
fails `_match` and is therefore excluded before registry insertion — it
appears in no registry group and reaches neither `process` nor `skip` —
while plain identifier-only filtering (no Annual restriction) would admit
it. -/
theorem c4_combined_mode_filter (fl : List String) (name cik : String)
    (yearOf : String → Option Nat) (zips : List (String × ZipContent))
    (loose : List String) (fp : FPath)
    (h1 : extract_cik_from_name name = some cik)
    (h2 : fl.contains cik = true)
    (h3 : classifyForm name = some FormType.quarterly)
    (h4 : fp.name = name) :
    match_pred (some fl) fp = false ∧
    match_id_only fl name = true ∧
    fp ∉ (regCands (mixedRegistry yearOf zips loose (some fl))).map
      Cand.fp ∧
    fp ∉ (mixedProcessCands yearOf zips loose (some fl)).map Cand.fp ∧
    fp ∉ (mixedSkipCands yearOf zips loose (some fl)).map Cand.fp := by
  have h10k : is_10k name = false := by
    cases hx : is_10k name with
    | false => rfl
    | true =>
      rw [is_10k] at hx
      rw [classifyForm, if_pos hx] at h3
      cases h3
  have hmp : match_pred (some fl) fp = false := by
    simp only [match_pred, h4, h1]
    rw [h10k, Bool.and_false]
  have hid : match_id_only fl name = true := by
    simp only [match_id_only, h1]
    exact h2
  have hreg : fp ∉ (regCands (mixedRegistry yearOf zips loose
      (some fl))).map Cand.fp := by
    intro hmem
    rcases List.mem_map.mp hmem with ⟨c, hcreg, hcfp⟩
    rcases buildRegistry_invariant yearOf (some fl)
      (mixedAllText zips loose (some fl)) [] c hcreg with habs | ⟨_, hfps⟩
    · simp [regCands] at habs
    · have hmt := mem_mixedAllText_match zips loose fl c.fp hfps
      rw [hcfp, hmp] at hmt
      cases hmt
  refine ⟨hmp, hid, hreg, ?_, ?_⟩
  · intro hmem
    rcases List.mem_map.mp hmem with ⟨c, hcp, hcfp⟩
    exact hreg (List.mem_map.mpr
      ⟨c, selectProcess_subset_regCands _ c hcp, hcfp⟩)
  · intro hmem
    rcases List.mem_map.mp hmem with ⟨c, hcp, hcfp⟩
    exact hreg (List.mem_map.mpr
      ⟨c, selectSkip_subset_regCands _ c hcp, hcfp⟩)

/-- Witness for C4: the file `edgar_data_123_10-Q.txt` resolves to filer id
0000000123, which is in the filter set, but is Quarterly: it is excluded
from the whole combined-mode run while identifier-only filtering admits
it. -/
theorem c4_combined_mode_filter_witness :
    match_pred (some ["0000000123"])
      (FPath.mk "input" "edgar_data_123_10-Q.txt") = false ∧
    match_id_only ["0000000123"] "edgar_data_123_10-Q.txt" = true ∧
    FPath.mk "input" "edgar_data_123_10-Q.txt" ∉
      (regCands (mixedRegistry (fun _ => some 2020) []
        ["edgar_data_123_10-Q.txt"] (some ["0000000123"]))).map Cand.fp ∧
    FPath.mk "input" "edgar_data_123_10-Q.txt" ∉
      (mixedProcessCands (fun _ => some 2020) []
        ["edgar_data_123_10-Q.txt"] (some ["0000000123"])).map Cand.fp ∧
    FPath.mk "input" "edgar_data_123_10-Q.txt" ∉
      (mixedSkipCands (fun _ => some 2020) []
        ["edgar_data_123_10-Q.txt"] (some ["0000000123"])).map Cand.fp :=
  c4_combined_mode_filter ["0000000123"] "edgar_data_123_10-Q.txt"
    "0000000123" (fun _ => some 2020) [] ["edgar_data_123_10-Q.txt"]
    (FPath.mk "input" "edgar_data_123_10-Q.txt")
    (by decide) (by decide) (by decide) rfl

/-- C7 counterexample: the same filing present once inside an archive and
once as a loose file (identical name `EDGAR_DATA_55_10-K.TXT`) gives two
candidates that both survive discovery deduplication — they are NOT
treated as duplicates, since their paths differ — and, both failing
filer-id extraction, NEITHER ends up in `process`, refuting "exactly one
of them ends up in process". -/
theorem c7_counterexample_same_document_copies :
    (mixedAllText [("a.zip", ZipContent.good ["EDGAR_DATA_55_10-K.TXT"])]
      ["EDGAR_DATA_55_10-K.TXT"] none).length = 2 ∧
    mixedProcessCands (fun _ => some 2020)
      [("a.zip", ZipContent.good ["EDGAR_DATA_55_10-K.TXT"])]
      ["EDGAR_DATA_55_10-K.TXT"] none = [] := by decide

/-- C7 amended: discovery deduplication collapses only exactly-equal paths
— it keeps the first occurrence of each path, yields a duplicate-free
order-preserving sublist — so case-variant or archive-vs-loose copies of
the same document remain distinct candidates; in the spec's ZIP-plus-loose
scenario exactly one of the two copies (the parseable archive one) ends up
in `process`, via parsing and per-group selection rather than discovery
deduplication. -/
theorem c7_amended_dedup_and_selection (l : List FPath) (x : FPath) :
    (dedupeKeepFirst l).Nodup ∧
    (x ∈ dedupeKeepFirst l ↔ x ∈ l) ∧
    List.Sublist (dedupeKeepFirst l) l ∧
    dedupeKeepFirst [FPath.mk "input" "edgar_data_55_10-K.txt",
        FPath.mk "input" "edgar_data_55_10-K.txt"] =
      [FPath.mk "input" "edgar_data_55_10-K.txt"] ∧
    mixedProcessCands (fun _ => some 2020)
      [("a.zip", ZipContent.good ["edgar_data_55_10-K.txt"])]
      ["EDGAR_DATA_55_10-K.TXT"] none =
      [⟨⟨"a.zip!0", "edgar_data_55_10-K.txt"⟩, FormType.annual⟩] := by
  refine ⟨dedupeAux_nodup l [], ?_, dedupeAux_sublist l [], by decide,
    by decide⟩
  rw [dedupeKeepFirst, mem_dedupeAux]
  simp
